import Mathlib

/-!
Verification of the tic-tac-toe game logic in `src/App.js`.

The embedding below translates the two logic components of the program:

* `calculateWinner` (App.js lines 150-174): the pure win detector over the
  9-cell squares array;
* the `Game` component's state (App.js lines 88-115): the `history` list of
  board snapshots and the `currentMove` cursor, together with the state
  transitions `handleClick`/`handlePlay` (a move attempt) and `jumpTo`
  (time travel).

JavaScript cells are `'X'`, `'O'` or `null`; we model a cell as
`Option Player` with `none` for both `null` and `undefined` (both are falsy
and neither is strictly equal to `'X'` or `'O'`, which is all this program
ever observes of them).  A board is the underlying array, modelled as a
`List Cell`; reading `squares[i]` is `List.getD i none` (out-of-range reads
give `undefined`, modelled as `none`), and the assignment
`nextSquares[i] = v` is `jsWriteAt`, which for an in-range index is
`List.set` and for an out-of-range index pads with holes and appends, as a
JavaScript array assignment does.
-/

deriving instance DecidableEq for Except

namespace TicTacToe

/-- A mark placed on the board: the JavaScript string `'X'` or `'O'`. -/
inductive Player where
  | X
  | O
deriving DecidableEq, Repr

/-- One entry of the squares array: `'X'`, `'O'`, or `null`/`undefined`. -/
abbrev Cell := Option Player

/-- The squares array of the program: a list of cells, 9 in normal play. -/
abbrev Board := List Cell

/-- The `lines` array of `calculateWinner` (App.js lines 153-162): the 8
winning triples, rows first, then columns, then the two diagonals. -/
def lines : List (Nat × Nat × Nat) :=
  [(0, 1, 2), (3, 4, 5), (6, 7, 8),
   (0, 3, 6), (1, 4, 7), (2, 5, 8),
   (0, 4, 8), (2, 4, 6)]

/-- The `for` loop of `calculateWinner` (App.js lines 165-172): scan the
remaining triples in order; on the first triple whose cell `a` is truthy
(non-`none`) and strictly equal to cells `b` and `c`, return that cell;
when the loop ends, fall through to `return null`. -/
def winnerLoop (squares : Board) : List (Nat × Nat × Nat) → Cell
  | [] => none
  | (a, b, c) :: rest =>
    let sa := squares.getD a none
    if sa ≠ none ∧ sa = squares.getD b none ∧ sa = squares.getD c none then sa
    else winnerLoop squares rest

/-- `calculateWinner` (App.js lines 150-174): the winner of a board, or
`none` when no triple is completed. -/
def calculateWinner (squares : Board) : Cell :=
  winnerLoop squares lines

/-- A JavaScript array assignment `l[i] = v`: in range it overwrites the
entry; past the end it pads with holes (read back as `undefined`, modelled
`none`) and appends `v`, making the length `i + 1`. -/
def jsWriteAt (l : Board) (i : Nat) (v : Cell) : Board :=
  if i < l.length then l.set i v
  else l ++ List.replicate (i - l.length) none ++ [v]

/-- The reactive state of the `Game` component (App.js lines 88-92):
the `history` array of board snapshots and the `currentMove` cursor. -/
structure GameState where
  history : List Board
  currentMove : Nat
deriving DecidableEq, Repr

/-- The initial state (App.js lines 90-92): a one-element history holding
the all-`null` board, cursor 0. -/
def initialState : GameState :=
  ⟨[List.replicate 9 none], 0⟩

/-- `currentSquares` (App.js line 98): `history[currentMove]`.  An
out-of-range cursor reads `undefined`; the default `[]` stands for it and
is never hit from a state whose cursor is in range. -/
def currentSquares (s : GameState) : Board :=
  s.history.getD s.currentMove []

/-- `xIsNext` (App.js line 95): `currentMove % 2 === 0`. -/
def xIsNext (s : GameState) : Bool :=
  s.currentMove % 2 == 0

/-- The player whose turn it is, the spec's `turnToMove()`: the mark that
`handleClick` (App.js lines 39-43) would place, `'X'` when `xIsNext`. -/
def turnToMove (s : GameState) : Player :=
  if xIsNext s then Player.X else Player.O

/-- The spec's error taxonomy for a rejected operation.  The program
itself signals no error value: `handleClick` returns early; the labels
record which early return fired. -/
inductive MoveError where
  | GameAlreadyWon
  | CellOccupied
  | IndexOutOfRange
deriving DecidableEq, Repr

/-- `handlePlay` (App.js lines 102-109): truncate the history to the
entries up to the cursor (`history.slice(0, currentMove + 1)`), append the
new board, and move the cursor to the last entry of the new history. -/
def handlePlay (s : GameState) (nextSquares : Board) : GameState :=
  let nextHistory := s.history.take (s.currentMove + 1) ++ [nextSquares]
  ⟨nextHistory, nextHistory.length - 1⟩

/-- The spec's `attemptMove`: `handleClick` (App.js lines 29-47) composed
with `handlePlay`.  `handleClick` returns early when
`calculateWinner(squares)` is truthy (labelled `GameAlreadyWon`) or, short
circuiting after it, when `squares[i]` is truthy (labelled `CellOccupied`);
otherwise it copies the board, writes the current player's mark at `i`, and
hands the new board to `handlePlay`.  The returned pair is the state after
the call and the outcome. -/
def attemptMove (s : GameState) (i : Nat) : GameState × Except MoveError Board :=
  let squares := currentSquares s
  if calculateWinner squares ≠ none then
    (s, Except.error MoveError.GameAlreadyWon)
  else if squares.getD i none ≠ none then
    (s, Except.error MoveError.CellOccupied)
  else
    let nextSquares := jsWriteAt squares i (if xIsNext s then some Player.X else some Player.O)
    (handlePlay s nextSquares, Except.ok nextSquares)

/-- `jumpTo` (App.js lines 113-115): `setCurrentMove(nextMove)`, with no
range check and no change to the history. -/
def jumpTo (s : GameState) (nextMove : Nat) : GameState :=
  ⟨s.history, nextMove⟩

/-- Play a sequence of clicks from a state, keeping only the state (a
rejected click leaves the state unchanged, as the early return does). -/
def playSeq (s : GameState) (moves : List Nat) : GameState :=
  moves.foldl (fun t i => (attemptMove t i).1) s

/-- The boolean test of one triple, worded as the spec does: all three
cells non-Empty and equal. -/
def tripleMatches (squares : Board) (t : Nat × Nat × Nat) : Bool :=
  let sa := squares.getD t.1 none
  decide (sa ≠ none ∧ sa = squares.getD t.2.1 none ∧ sa = squares.getD t.2.2 none)

/-- The spec's wording of the win detector (§4.1): find the first triple
whose three cells are all non-Empty and equal and return its value, else
Empty.  Stated independently of the loop, to be compared with
`calculateWinner`. -/
def firstMatchWinner (squares : Board) : Cell :=
  match lines.find? (tripleMatches squares) with
  | some t => squares.getD t.1 none
  | none => none

/-- The board of the spec's §8 example: one triple filled with `p`, all
other cells Empty. -/
def tripleBoard (t : Nat × Nat × Nat) (p : Player) : Board :=
  (((List.replicate 9 none).set t.1 (some p)).set t.2.1 (some p)).set t.2.2 (some p)

/-- The player to move after `k` snapshots, the spec's `Turn(k)`: X when
`k` is even, O when `k` is odd. -/
def Turn (k : Nat) : Player :=
  if k % 2 = 0 then Player.X else Player.O

/-- One step of the history invariant: `next` is `prev` with exactly one
cell changed, a cell that was Empty, and carries the mark of the player to
move at index `k`. -/
def HistoryStep (prev next : Board) (k : Nat) : Prop :=
  ∃ i, i < 9 ∧ prev.getD i none = none ∧ next = prev.set i (some (Turn k))

/-- The history invariant of the `Game` component: the cursor indexes the
history, every snapshot has 9 cells, snapshot 0 is the all-Empty board,
and each later snapshot extends its predecessor by one legal mark. -/
def Inv (s : GameState) : Prop :=
  s.currentMove < s.history.length ∧
  (∀ b ∈ s.history, b.length = 9) ∧
  s.history.getD 0 [] = List.replicate 9 none ∧
  ∀ k : Nat, k + 1 < s.history.length →
    HistoryStep (s.history.getD k []) (s.history.getD (k + 1) []) k

/-- States the program can reach: the UI dispatches `handleClick` only for
the nine rendered squares (indices 0-8) and `jumpTo` only for indices of
existing history entries (the rendered move list), matching the spec's
operation signatures. -/
inductive Reachable : GameState → Prop where
  | init : Reachable initialState
  | move (s : GameState) (i : Nat) (h : Reachable s) (hi : i < 9) :
      Reachable (attemptMove s i).1
  | jump (s : GameState) (m : Nat) (h : Reachable s) (hm : m < s.history.length) :
      Reachable (jumpTo s m)

/-- The loop of `calculateWinner` returns the value of the first matching
triple of its remaining list, and `none` when no triple matches. -/
theorem winnerLoop_eq_find (squares : Board) (ts : List (Nat × Nat × Nat)) :
    winnerLoop squares ts =
      match ts.find? (tripleMatches squares) with
      | some t => squares.getD t.1 none
      | none => none := by
  induction ts with
  | nil => rfl
  | cons t rest ih =>
    obtain ⟨a, b, c⟩ := t
    simp only [winnerLoop, List.find?]
    by_cases h : squares.getD a none ≠ none ∧
        squares.getD a none = squares.getD b none ∧
        squares.getD a none = squares.getD c none
    · have hb : tripleMatches squares (a, b, c) = true := by
        simp only [tripleMatches]
        exact decide_eq_true h
      rw [if_pos h, hb]
    · have hb : tripleMatches squares (a, b, c) = false := by
        simp only [tripleMatches]
        exact decide_eq_false h
      rw [if_neg h, hb, ih]

/-- C1: for every board, `calculateWinner` checks the 8 fixed triples in
the order rows, columns, diagonals, returns the value of the first triple
whose three cells are all non-Empty and equal, and returns Empty when no
triple matches; the all-Empty board has no winner, and for each triple the
board with exactly that triple set to X (resp. O) yields winner X
(resp. O). -/
theorem calculateWinner_spec :
    (∀ squares : Board, calculateWinner squares = firstMatchWinner squares) ∧
    calculateWinner (List.replicate 9 none) = none ∧
    (∀ t ∈ lines, calculateWinner (tripleBoard t Player.X) = some Player.X) ∧
    (∀ t ∈ lines, calculateWinner (tripleBoard t Player.O) = some Player.O) :=
  ⟨fun squares => winnerLoop_eq_find squares lines, by decide, by decide, by decide⟩

/-- Witness for `calculateWinner_spec`: the top-row triple filled with X
wins for X. -/
theorem calculateWinner_spec_witness :
    calculateWinner (tripleBoard (0, 1, 2) Player.X) = some Player.X :=
  calculateWinner_spec.2.2.1 (0, 1, 2) (by decide)

/-- C9: whenever at least one triple is completed — also on boards
unreachable in legal play where distinct triples hold different values —
`calculateWinner` returns the value of the first completed triple in the
fixed enumeration order; concretely, with rows 0 and 1 completed by X and
O the result is X, and with rows 0 and 2 completed by O and X it is O. -/
theorem calculateWinner_first_completed :
    (∀ squares : Board, ∀ t ∈ lines, tripleMatches squares t = true →
      ∃ u, lines.find? (tripleMatches squares) = some u ∧
        calculateWinner squares = squares.getD u.1 none) ∧
    calculateWinner
      [some Player.X, some Player.X, some Player.X,
       some Player.O, some Player.O, some Player.O, none, none, none] = some Player.X ∧
    calculateWinner
      [some Player.O, some Player.O, some Player.O,
       none, none, none, some Player.X, some Player.X, some Player.X] = some Player.O := by
  refine ⟨?_, by decide, by decide⟩
  intro squares t ht hmatch
  cases hfind : lines.find? (tripleMatches squares) with
  | none =>
    rw [List.find?_eq_none] at hfind
    exact absurd hmatch (by simpa using hfind t ht)
  | some u =>
    refine ⟨u, rfl, ?_⟩
    rw [calculateWinner, winnerLoop_eq_find, hfind]

/-- Witness for `calculateWinner_first_completed`: on the double-win board
with X in row 0 and O in row 1, the winner is the value of the first
completed triple. -/
theorem calculateWinner_first_completed_witness :
    ∃ u, lines.find? (tripleMatches
        [some Player.X, some Player.X, some Player.X,
         some Player.O, some Player.O, some Player.O, none, none, none]) = some u ∧
      calculateWinner
        [some Player.X, some Player.X, some Player.X,
         some Player.O, some Player.O, some Player.O, none, none, none] =
        List.getD
          [some Player.X, some Player.X, some Player.X,
           some Player.O, some Player.O, some Player.O, none, none, none] u.1 none :=
  calculateWinner_first_completed.1
    [some Player.X, some Player.X, some Player.X,
     some Player.O, some Player.O, some Player.O, none, none, none]
    (0, 1, 2) (by decide) (by decide)

/-- C3 (amended): `attemptMove` checks two preconditions, in order: a
non-Empty `calculateWinner` of the current board fails with
`GameAlreadyWon`; otherwise a non-Empty target cell fails with
`CellOccupied`.  There is no index-range check, and no call ever fails
with `IndexOutOfRange`. -/
theorem attemptMove_check_order :
    ∀ (s : GameState) (i : Nat),
      (calculateWinner (currentSquares s) ≠ none →
        attemptMove s i = (s, Except.error MoveError.GameAlreadyWon)) ∧
      (calculateWinner (currentSquares s) = none →
        (currentSquares s).getD i none ≠ none →
        attemptMove s i = (s, Except.error MoveError.CellOccupied)) ∧
      (∀ e : MoveError, (attemptMove s i).2 = Except.error e →
        e ≠ MoveError.IndexOutOfRange) := by
  intro s i
  refine ⟨fun hw => by simp [attemptMove, hw], ?_, ?_⟩
  · intro hw ho
    have ho' : ¬(currentSquares s)[i]?.getD none = none := by simpa using ho
    simp [attemptMove, hw, ho']
  · intro e he
    by_cases hw : calculateWinner (currentSquares s) = none
    · by_cases ho : ((currentSquares s)[i]?.getD none) = none
      · simp [attemptMove, hw, ho] at he
      · simp [attemptMove, hw, ho] at he
        simp [← he]
    · simp [attemptMove, hw] at he
      simp [← he]

/-- Witness for `attemptMove_check_order`: a board already won by X
rejects a click on an Empty cell with `GameAlreadyWon`, and a fresh board
rejects a click on an occupied cell with `CellOccupied`. -/
theorem attemptMove_check_order_witness :
    attemptMove ⟨[[some Player.X, some Player.X, some Player.X,
        none, none, none, none, none, none]], 0⟩ 5 =
      (⟨[[some Player.X, some Player.X, some Player.X,
          none, none, none, none, none, none]], 0⟩,
       Except.error MoveError.GameAlreadyWon) ∧
    attemptMove ⟨[[some Player.X, none, none,
        none, none, none, none, none, none]], 0⟩ 0 =
      (⟨[[some Player.X, none, none,
          none, none, none, none, none, none]], 0⟩,
       Except.error MoveError.CellOccupied) :=
  ⟨(attemptMove_check_order ⟨[[some Player.X, some Player.X, some Player.X,
      none, none, none, none, none, none]], 0⟩ 5).1 (by decide),
   (attemptMove_check_order ⟨[[some Player.X, none, none,
      none, none, none, none, none, none]], 0⟩ 0).2.1 (by decide) (by decide)⟩

/-- Counterexample to C3 as stated: on the fresh board, index 9 is outside
[0,8], yet `attemptMove` does not fail with `IndexOutOfRange` — it
accepts the click and appends a 10-cell board with X at index 9. -/
theorem attemptMove_index9_accepted :
    (9 : Nat) > 8 ∧
    calculateWinner (currentSquares initialState) = none ∧
    (currentSquares initialState).getD 9 none = none ∧
    (attemptMove initialState 9).2 =
      Except.ok (List.replicate 9 none ++ [some Player.X]) := by decide

/-- C4 (amended): `jumpTo(move)` performs no range check and never fails:
for every state and every move index, in range or not, it sets the cursor
to `move` and never alters the contents or length of the history; in
particular any sequence of jumps leaves the history untouched. -/
theorem jumpTo_sets_cursor :
    ∀ (s : GameState) (m : Nat),
      (jumpTo s m).history = s.history ∧
      (jumpTo s m).currentMove = m ∧
      ∀ ms : List Nat, (ms.foldl jumpTo s).history = s.history := by
  intro s m
  refine ⟨rfl, rfl, ?_⟩
  intro ms
  induction ms generalizing s with
  | nil => rfl
  | cons a ms ih => exact (ih (jumpTo s a)).trans rfl

/-- Counterexample to C4 as stated: after two moves the history has
length 3; `jumpTo 5` is out of range, yet it does not fail and does not
leave the state unchanged — the cursor becomes 5. -/
theorem jumpTo_out_of_range_changes_state :
    (playSeq initialState [0, 1]).history.length = 3 ∧
    (jumpTo (playSeq initialState [0, 1]) 5).currentMove = 5 ∧
    jumpTo (playSeq initialState [0, 1]) 5 ≠ playSeq initialState [0, 1] := by decide

/-- C7 (amended): when the current board has no winner and the target cell
is occupied, `attemptMove` fails with `CellOccupied` and leaves the state
— history and cursor — exactly as it was; when the current board already
has a winner the same click instead fails with `GameAlreadyWon`. -/
theorem attemptMove_occupied :
    ∀ (s : GameState) (i : Nat),
      (currentSquares s).getD i none ≠ none →
      (calculateWinner (currentSquares s) = none →
        attemptMove s i = (s, Except.error MoveError.CellOccupied)) ∧
      (calculateWinner (currentSquares s) ≠ none →
        attemptMove s i = (s, Except.error MoveError.GameAlreadyWon)) := by
  intro s i ho
  have ho' : ¬(currentSquares s)[i]?.getD none = none := by simpa using ho
  exact ⟨fun hw => by simp [attemptMove, hw, ho'], fun hw => by simp [attemptMove, hw]⟩

/-- Witness for `attemptMove_occupied`: clicking the occupied cell 0 of an
unwon one-move board fails with `CellOccupied` and preserves the state. -/
theorem attemptMove_occupied_witness :
    attemptMove ⟨[[some Player.X, none, none,
        none, none, none, none, none, none]], 0⟩ 0 =
      (⟨[[some Player.X, none, none,
          none, none, none, none, none, none]], 0⟩,
       Except.error MoveError.CellOccupied) :=
  (attemptMove_occupied ⟨[[some Player.X, none, none,
      none, none, none, none, none, none]], 0⟩ 0 (by decide)).1 (by decide)

/-- Counterexample to C7 as stated: after X wins the top row (moves
0,3,1,4,2), cell 0 is occupied, yet `attemptMove 0` does not fail with
`CellOccupied` — the winner check fires first and it fails with
`GameAlreadyWon`. -/
theorem attemptMove_occupied_on_won_board :
    (currentSquares (playSeq initialState [0, 3, 1, 4, 2])).getD 0 none ≠ none ∧
    (attemptMove (playSeq initialState [0, 3, 1, 4, 2]) 0).2 ≠
      Except.error MoveError.CellOccupied ∧
    (attemptMove (playSeq initialState [0, 3, 1, 4, 2]) 0).2 =
      Except.error MoveError.GameAlreadyWon := by decide

/-- C2: when the current board has no winner and the target cell is an
Empty cell of the board, `attemptMove` succeeds: the new board is the
current board with only the target cell changed to `turnToMove`'s mark,
the history becomes the entries up to the cursor with the new board
appended, the cursor becomes the index of the last entry of the new
history, and the new board is returned. -/
theorem attemptMove_success :
    ∀ (s : GameState) (i : Nat),
      calculateWinner (currentSquares s) = none →
      i < (currentSquares s).length →
      (currentSquares s).getD i none = none →
      attemptMove s i =
        (⟨s.history.take (s.currentMove + 1) ++
            [(currentSquares s).set i (some (turnToMove s))],
          (s.history.take (s.currentMove + 1) ++
            [(currentSquares s).set i (some (turnToMove s))]).length - 1⟩,
         Except.ok ((currentSquares s).set i (some (turnToMove s)))) := by
  intro s i hw hlen ho
  have ho' : (currentSquares s)[i]?.getD none = none := by simpa using ho
  have hmark : (if xIsNext s = true then some Player.X else some Player.O) =
      some (turnToMove s) := by
    by_cases h : xIsNext s <;> simp [turnToMove, h]
  have hset : jsWriteAt (currentSquares s) i (some (turnToMove s)) =
      (currentSquares s).set i (some (turnToMove s)) := by
    rw [jsWriteAt, if_pos hlen]
  simp [attemptMove, hw, ho', hmark, hset, handlePlay]

/-- Witness for `attemptMove_success`: the first click at cell 4 of a
fresh game appends the board with X at 4 and moves the cursor to 1. -/
theorem attemptMove_success_witness :
    attemptMove initialState 4 =
      (⟨initialState.history.take (initialState.currentMove + 1) ++
          [(currentSquares initialState).set 4 (some (turnToMove initialState))],
        (initialState.history.take (initialState.currentMove + 1) ++
          [(currentSquares initialState).set 4 (some (turnToMove initialState))]).length - 1⟩,
       Except.ok ((currentSquares initialState).set 4 (some (turnToMove initialState)))) :=
  attemptMove_success initialState 4 (by decide) (by decide) (by decide)

/-- C6: whenever the current board has a winner, `attemptMove` at every
cell index — occupied or still Empty — fails with `GameAlreadyWon` and
leaves the state unchanged; concretely, after the moves 0, 1, 3, 4, 6 the
winner is X (left column) and every further click is rejected this way. -/
theorem attemptMove_game_over :
    (∀ (s : GameState) (i : Nat),
      calculateWinner (currentSquares s) ≠ none →
      attemptMove s i = (s, Except.error MoveError.GameAlreadyWon)) ∧
    calculateWinner (currentSquares (playSeq initialState [0, 1, 3, 4, 6])) =
      some Player.X ∧
    ∀ i : Nat, attemptMove (playSeq initialState [0, 1, 3, 4, 6]) i =
      (playSeq initialState [0, 1, 3, 4, 6], Except.error MoveError.GameAlreadyWon) := by
  have hgen : ∀ (s : GameState) (i : Nat),
      calculateWinner (currentSquares s) ≠ none →
      attemptMove s i = (s, Except.error MoveError.GameAlreadyWon) := by
    intro s i hw
    simp [attemptMove, hw]
  exact ⟨hgen, by decide, fun i => hgen (playSeq initialState [0, 1, 3, 4, 6]) i (by decide)⟩

/-- Witness for `attemptMove_game_over`: on a board won by O in the left
column, a click on the Empty cell 1 fails with `GameAlreadyWon`. -/
theorem attemptMove_game_over_witness :
    attemptMove ⟨[[some Player.O, none, none,
        some Player.O, none, none, some Player.O, none, none]], 0⟩ 1 =
      (⟨[[some Player.O, none, none,
          some Player.O, none, none, some Player.O, none, none]], 0⟩,
       Except.error MoveError.GameAlreadyWon) :=
  attemptMove_game_over.1 ⟨[[some Player.O, none, none,
      some Player.O, none, none, some Player.O, none, none]], 0⟩ 1 (by decide)

/-- C8: `turnToMove` is X exactly when the cursor is even and O exactly
when it is odd; the player to move is a function of the cursor's parity
alone; and on a fresh game, clicking cell 4 places X there, moves the
cursor to 1, and makes `turnToMove` O. -/
theorem turnToMove_parity :
    (∀ s : GameState,
      (turnToMove s = Player.X ↔ s.currentMove % 2 = 0) ∧
      (turnToMove s = Player.O ↔ s.currentMove % 2 = 1)) ∧
    (∀ s t : GameState,
      s.currentMove % 2 = t.currentMove % 2 → turnToMove s = turnToMove t) ∧
    (attemptMove initialState 4).2 =
      Except.ok ((List.replicate 9 none).set 4 (some Player.X)) ∧
    (attemptMove initialState 4).1.currentMove = 1 ∧
    turnToMove (attemptMove initialState 4).1 = Player.O := by
  have key : ∀ s : GameState,
      turnToMove s = if s.currentMove % 2 = 0 then Player.X else Player.O := by
    intro s
    by_cases h : s.currentMove % 2 = 0 <;> simp [turnToMove, xIsNext, h]
  refine ⟨?_, ?_, by decide, by decide, by decide⟩
  · intro s
    rcases Nat.mod_two_eq_zero_or_one s.currentMove with h | h <;> rw [key, h] <;> decide
  · intro s t h
    rw [key, key, h]

/-- Witness for `turnToMove_parity`: two states with cursors 0 and 2 have
the same player to move. -/
theorem turnToMove_parity_witness :
    turnToMove ⟨[], 0⟩ = turnToMove ⟨[], 2⟩ :=
  turnToMove_parity.2.1 ⟨[], 0⟩ ⟨[], 2⟩ (by decide)

/-- Reading inside the kept part of a `take` is reading the original
list. -/
theorem getD_take_of_lt {α : Type} (l : List α) (n k : Nat) (d : α) (h : k < n) :
    (l.take n).getD k d = l.getD k d := by
  induction l generalizing n k with
  | nil => simp
  | cons a l ih =>
    cases n with
    | zero => exact absurd h (Nat.not_lt_zero k)
    | succ n =>
      cases k with
      | zero => rfl
      | succ k =>
        simp only [List.take_succ_cons, List.getD_cons_succ]
        exact ih n k (Nat.lt_of_succ_lt_succ h)

/-- The mark written by `handleClick` is the mark of the player to
move. -/
theorem handleClick_mark (s : GameState) :
    (if xIsNext s = true then some Player.X else some Player.O) =
      some (turnToMove s) := by
  by_cases h : xIsNext s <;> simp [turnToMove, h]

/-- Shape of a successful click: when the winner check and the occupied
check both pass, `attemptMove` writes the current player's mark and hands
the new board to `handlePlay`. -/
theorem attemptMove_ok (s : GameState) (i : Nat)
    (hw : calculateWinner (currentSquares s) = none)
    (ho : (currentSquares s).getD i none = none) :
    attemptMove s i =
      (handlePlay s (jsWriteAt (currentSquares s) i (some (turnToMove s))),
       Except.ok (jsWriteAt (currentSquares s) i (some (turnToMove s)))) := by
  have ho' : (currentSquares s)[i]?.getD none = none := by simpa using ho
  simp [attemptMove, hw, ho', handleClick_mark]

/-- A rejected click leaves the state exactly as it was. -/
theorem attemptMove_error (s : GameState) (i : Nat) (e : MoveError)
    (h : (attemptMove s i).2 = Except.error e) : (attemptMove s i).1 = s := by
  by_cases hw : calculateWinner (currentSquares s) = none
  · by_cases ho : (currentSquares s)[i]?.getD none = none
    · simp [attemptMove, hw, ho] at h
    · simp [attemptMove, hw, ho]
  · simp [attemptMove, hw]

/-- C10: a successful `attemptMove` from a state whose cursor indexes the
history never changes any retained history entry: every snapshot at
indices 0 through cursor is afterwards unchanged, cell for cell; the new
history has exactly one more entry than the kept ones, and the appended
last entry is the returned board. -/
theorem attemptMove_keeps_snapshots :
    ∀ (s : GameState) (i : Nat) (s₂ : GameState) (b : Board),
      s.currentMove < s.history.length →
      attemptMove s i = (s₂, Except.ok b) →
      (∀ k : Nat, k ≤ s.currentMove →
        s₂.history.getD k [] = s.history.getD k []) ∧
      s₂.history.length = s.currentMove + 2 ∧
      s₂.history.getD (s.currentMove + 1) [] = b := by
  intro s i s₂ b hcur h
  by_cases hw : calculateWinner (currentSquares s) = none
  · by_cases ho : (currentSquares s).getD i none = none
    · rw [attemptMove_ok s i hw ho] at h
      obtain ⟨h1, h2⟩ := Prod.mk.injEq .. ▸ h
      replace h2 : jsWriteAt (currentSquares s) i (some (turnToMove s)) = b := by
        simpa using h2
      subst h1 h2
      have htl : (s.history.take (s.currentMove + 1)).length = s.currentMove + 1 := by
        rw [List.length_take]
        exact Nat.min_eq_left (Nat.succ_le_of_lt hcur)
      refine ⟨?_, ?_, ?_⟩
      · intro k hk
        show (s.history.take (s.currentMove + 1) ++ [_]).getD k [] = _
        rw [List.getD_append _ _ _ _ (by rw [htl]; omega)]
        exact getD_take_of_lt _ _ _ _ (by omega)
      · show (s.history.take (s.currentMove + 1) ++ [_]).length = _
        rw [List.length_append, htl]
        rfl
      · show (s.history.take (s.currentMove + 1) ++ [_]).getD (s.currentMove + 1) [] = _
        rw [List.getD_append_right _ _ _ _ (Nat.le_of_eq htl), htl, Nat.sub_self]
        rfl
    · have ho' : ¬(currentSquares s)[i]?.getD none = none := by simpa using ho
      simp [attemptMove, hw, ho'] at h
  · simp [attemptMove, hw] at h

/-- Witness for `attemptMove_keeps_snapshots`: after the first click at
cell 0, entry 0 of the history is still the board it was. -/
theorem attemptMove_keeps_snapshots_witness :
    (⟨[List.replicate 9 none, (List.replicate 9 none).set 0 (some Player.X)], 1⟩ :
        GameState).history.getD 0 [] = initialState.history.getD 0 [] :=
  (attemptMove_keeps_snapshots initialState 0
    ⟨[List.replicate 9 none, (List.replicate 9 none).set 0 (some Player.X)], 1⟩
    ((List.replicate 9 none).set 0 (some Player.X))
    (by decide) (by decide)).1 0 (Nat.le_refl 0)

/-- The spec's turn function agrees with the mark of the player to
move. -/
theorem turnToMove_eq_Turn (s : GameState) : turnToMove s = Turn s.currentMove := by
  by_cases h : s.currentMove % 2 = 0 <;> simp [turnToMove, xIsNext, Turn, h]

/-- The initial state satisfies the history invariant. -/
theorem inv_initialState : Inv initialState := by
  refine ⟨by decide, by decide, by decide, ?_⟩
  intro k hk
  rw [show initialState.history.length = 1 from rfl] at hk
  omega

/-- Time travel preserves the history invariant when the target index is
in range. -/
theorem inv_jumpTo (s : GameState) (m : Nat) (hs : Inv s)
    (hm : m < s.history.length) : Inv (jumpTo s m) :=
  ⟨hm, hs.2.1, hs.2.2.1, hs.2.2.2⟩

/-- A click on one of the nine squares preserves the history invariant,
whether it is accepted or rejected. -/
theorem inv_attemptMove (s : GameState) (i : Nat) (hs : Inv s) (hi : i < 9) :
    Inv (attemptMove s i).1 := by
  obtain ⟨hcur, hlen9, hhead, hstep⟩ := hs
  by_cases hw : calculateWinner (currentSquares s) = none
  · by_cases ho : (currentSquares s).getD i none = none
    · have hcs9 : (currentSquares s).length = 9 := by
        refine hlen9 _ ?_
        rw [currentSquares, List.getD_eq_getElem _ _ hcur]
        exact List.getElem_mem _
      have hset : jsWriteAt (currentSquares s) i (some (turnToMove s)) =
          (currentSquares s).set i (some (Turn s.currentMove)) := by
        rw [turnToMove_eq_Turn, jsWriteAt, if_pos (hcs9 ▸ hi)]
      have hres : (attemptMove s i).1 =
          handlePlay s ((currentSquares s).set i (some (Turn s.currentMove))) := by
        rw [attemptMove_ok s i hw ho, hset]
      rw [hres]
      have htl : (s.history.take (s.currentMove + 1)).length = s.currentMove + 1 := by
        rw [List.length_take]
        exact Nat.min_eq_left (Nat.succ_le_of_lt hcur)
      have hH : (handlePlay s ((currentSquares s).set i (some (Turn s.currentMove)))).history =
          s.history.take (s.currentMove + 1) ++
            [(currentSquares s).set i (some (Turn s.currentMove))] := rfl
      have hHlen : (handlePlay s ((currentSquares s).set i
          (some (Turn s.currentMove)))).history.length = s.currentMove + 2 := by
        rw [hH, List.length_append, htl]
        rfl
      have hkeep : ∀ k : Nat, k < s.currentMove + 1 →
          (handlePlay s ((currentSquares s).set i
            (some (Turn s.currentMove)))).history.getD k [] = s.history.getD k [] := by
        intro k hk
        rw [hH, List.getD_append _ _ _ _ (by rw [htl]; exact hk)]
        exact getD_take_of_lt _ _ _ _ hk
      have hlast : (handlePlay s ((currentSquares s).set i
          (some (Turn s.currentMove)))).history.getD (s.currentMove + 1) [] =
          (currentSquares s).set i (some (Turn s.currentMove)) := by
        rw [hH, List.getD_append_right _ _ _ _ (Nat.le_of_eq htl), htl, Nat.sub_self]
        rfl
      refine ⟨?_, ?_, ?_, ?_⟩
      · have hc : (handlePlay s ((currentSquares s).set i
            (some (Turn s.currentMove)))).currentMove =
            (handlePlay s ((currentSquares s).set i
              (some (Turn s.currentMove)))).history.length - 1 := rfl
        show (handlePlay s ((currentSquares s).set i
            (some (Turn s.currentMove)))).currentMove <
          (handlePlay s ((currentSquares s).set i
            (some (Turn s.currentMove)))).history.length
        rw [hc, hHlen]
        omega
      · intro b hb
        rw [hH] at hb
        rcases List.mem_append.mp hb with hb | hb
        · exact hlen9 b (List.Sublist.mem hb (List.take_sublist _ _))
        · rw [List.mem_singleton.mp hb, List.length_set]
          exact hcs9
      · rw [hkeep 0 (Nat.succ_pos _)]
        exact hhead
      · intro k hk
        rw [hHlen] at hk
        by_cases hkc : k + 1 < s.currentMove + 1
        · rw [hkeep k (by omega), hkeep (k + 1) hkc]
          exact hstep k (by omega)
        · have hkeq : k = s.currentMove := by omega
          subst hkeq
          rw [hkeep s.currentMove (Nat.lt_succ_self _), hlast]
          exact ⟨i, hi, ho, rfl⟩
    · have ho' : ¬(currentSquares s)[i]?.getD none = none := by simpa using ho
      have : (attemptMove s i).1 = s := by simp [attemptMove, hw, ho']
      rw [this]
      exact ⟨hcur, hlen9, hhead, hstep⟩
  · have : (attemptMove s i).1 = s := by simp [attemptMove, hw]
    rw [this]
    exact ⟨hcur, hlen9, hhead, hstep⟩

/-- Every state the program can reach satisfies the history invariant. -/
theorem inv_of_reachable : ∀ s : GameState, Reachable s → Inv s := by
  intro s h
  induction h with
  | init => exact inv_initialState
  | move s i h hi ih => exact inv_attemptMove s i ih hi
  | jump s m h hm ih => exact inv_jumpTo s m ih hm

/-- C5: in every state reachable from the initial state by clicks and
time travel, history entry 0 is the all-Empty board, and each later entry
differs from its predecessor in exactly one cell, which goes from Empty
to the mark of `Turn(k-1)` — X when `k-1` is even, O when it is odd. -/
theorem reachable_history_invariant :
    ∀ s : GameState, Reachable s →
      s.history.getD 0 [] = List.replicate 9 none ∧
      ∀ k : Nat, 0 < k → k < s.history.length →
        ∃ i, i < 9 ∧ (s.history.getD (k - 1) []).getD i none = none ∧
          s.history.getD k [] =
            (s.history.getD (k - 1) []).set i (some (Turn (k - 1))) := by
  intro s h
  obtain ⟨-, -, hhead, hstep⟩ := inv_of_reachable s h
  refine ⟨hhead, ?_⟩
  intro k hk hklen
  obtain ⟨j, rfl⟩ : ∃ j, k = j + 1 := ⟨k - 1, by omega⟩
  simpa [HistoryStep] using hstep j (by omega)

/-- Witness for `reachable_history_invariant`: the initial state is
reachable and its entry 0 is the all-Empty board. -/
theorem reachable_history_invariant_witness :
    initialState.history.getD 0 [] = List.replicate 9 none :=
  (reachable_history_invariant initialState Reachable.init).1

end TicTacToe
